import Mathlib

/-!
# Verification of the News-Summarizer request workflow (`app.py`)

Shallow embedding of the single-file Flask application `app.py`
(Sanjayk2616/News-Summarizer).  Article text is modelled as `List Char`
(Python strings are sequences of code points, and all the string
operations the app uses — `str.strip`, `str.split('.')`, slicing,
`len`, `in`, `join` — act on code points).  External library calls
(`validators.url`, `requests.get`, `newspaper.Article`, `TextBlob`)
are modelled as inputs in an environment record; the app's own logic
(the branch structure of `index`, the summarizer, the sentiment
mapping, `get_website_name`) is translated directly from the source.
-/

namespace NewsSummarizer

/-- Model of Python `str.isspace` on the characters removed by
`str.strip()` with no argument: space, tab, newline, carriage return,
vertical tab, form feed. -/
def pyIsSpace (c : Char) : Bool :=
  c = ' ' || c = '\t' || c = '\n' || c = '\r' || c.toNat = 11 || c.toNat = 12

/-- Model of Python `str.strip()`: drop leading and trailing whitespace. -/
def pyStrip (s : List Char) : List Char :=
  ((s.dropWhile pyIsSpace).reverse.dropWhile pyIsSpace).reverse

/-- Model of Python `text.split('.')`: split on every occurrence of the
period, keeping empty pieces; `"".split('.') == [""]`. -/
def splitOnDot : List Char → List (List Char)
  | [] => [[]]
  | c :: cs =>
    let r := splitOnDot cs
    if c = '.' then [] :: r
    else (c :: r.headD []) :: r.tail

/-- Model of Python `sep.join(pieces)`. -/
def joinSep (sep : List Char) : List (List Char) → List Char
  | [] => []
  | [x] => x
  | x :: xs => x ++ sep ++ joinSep sep xs

/-- The separator `". "` used at line 124 of `app.py`. -/
def dotSpace : List Char := ['.', ' ']

/-- The literal `"..."` appended by the truncation fallback (line 126). -/
def dots : List Char := ['.', '.', '.']

/-- Line 122 of `app.py`:
`sentences = [s.strip() for s in article_text.split('.') if s.strip()]`. -/
def sentencesOf (article_text : List Char) : List (List Char) :=
  ((splitOnDot article_text).map pyStrip).filter (fun s => s ≠ [])

/-- Line 123 of `app.py`: `max_summarized_sentences = 5`. -/
def max_summarized_sentences : Nat := 5

/-- Lines 122–126 of `app.py`: the summary computation.
```
sentences = [s.strip() for s in article_text.split('.') if s.strip()]
max_summarized_sentences = 5
summary = ". ".join(sentences[:max_summarized_sentences])
if not summary:
    summary = article_text[:800] + ("..." if len(article_text) > 800 else "")
```
-/
def summarize (article_text : List Char) : List Char :=
  let summary := joinSep dotSpace ((sentencesOf article_text).take max_summarized_sentences)
  if summary = [] then
    article_text.take 800 ++ (if article_text.length > 800 then dots else [])
  else summary

example : summarize "A. B. C. D. E. F.".data = "A. B. C. D. E".data := by decide

example : summarize "Hello world.".data = "Hello world".data := by decide

example : summarize "...  .. ".data = "...  .. ".data := by decide

/-- `str.strip()` lifted to `String`. -/
def pyStripS (s : String) : String := ⟨pyStrip s.data⟩

/-- Model of Python `pat in s` (substring containment). -/
def hasSubstr (pat : List Char) : List Char → Bool
  | [] => pat.isPrefixOf []
  | c :: rest => pat.isPrefixOf (c :: rest) || hasSubstr pat rest

example : hasSubstr "text/html".data "text/html; charset=utf-8".data = true := by decide
example : hasSubstr "text/html".data "application/json".data = false := by decide

/-- Modelled from the standard library: `urllib.parse` — scan to the first
`"://"` and return what follows it. -/
def afterSchemeSep : List Char → Option (List Char)
  | ':' :: '/' :: '/' :: rest => some rest
  | _ :: rest => afterSchemeSep rest
  | [] => none

/-- Modelled from the standard library: `urlparse(url).netloc` for an
absolute URL — the authority component between the `"//"` following the
scheme and the next `'/'`, `'?'` or `'#'`. -/
def netloc (url : String) : String :=
  match afterSchemeSep url.data with
  | some rest => ⟨rest.takeWhile (fun c => !(c == '/' || c == '?' || c == '#'))⟩
  | none => ""

example : netloc "https://www.example.com/story" = "www.example.com" := by decide

/-- Lines 43–48 of `app.py`:
```
def get_website_name(url):
    parsed_url = urlparse(url)
    domain = parsed_url.netloc
    if domain.startswith("www."):
        domain = domain[4:]
    return domain
```
-/
def get_website_name (url : String) : String :=
  let domain := netloc url
  if "www.".data.isPrefixOf domain.data then ⟨domain.data.drop 4⟩ else domain

example : get_website_name "https://www.example.com/story" = "example.com" := by decide

/-- Line 108 of `app.py`:
`authors = ', '.join(article.authors) if article.authors else get_website_name(url)`. -/
def authors_field (authors : List String) (url : String) : String :=
  if authors ≠ [] then String.intercalate ", " authors else get_website_name url

/-- Modelled from the spec: the external `validators.url` check (line 62).
Per the spec, invalid covers the empty string, malformed strings, and
strings missing an http/https scheme; validity is modelled as an
`http://` or `https://` scheme followed by a nonempty host. -/
def validators_url (s : String) : Bool :=
  ("http://".data.isPrefixOf s.data || "https://".data.isPrefixOf s.data)
    && netloc s != ""

/-- Lines 131–136 of `app.py`: the polarity score, with the TextBlob
failure (`except` branch) defaulting to `0.0`.  `none` models
`TextBlob(article_text)` raising. -/
def polarity_of (blobResult : Option ℚ) : ℚ := blobResult.getD 0

/-- Lines 138–143 of `app.py`:
```
if polarity > 0: sentiment = 'happy 😊'
elif polarity < 0: sentiment = 'sad 😟'
else: sentiment = 'neutral 😐'
```
-/
def sentiment_of (polarity : ℚ) : String :=
  if polarity > 0 then "happy 😊"
  else if polarity < 0 then "sad 😟"
  else "neutral 😐"

/-- The flash messages of `index`, in source order (lines 63–118). -/
def msg_invalid_url : String := "Please enter a valid URL (include http/https)."

/-- Line 76. -/
def msg_fetch_failed : String :=
  "Failed to download the content of the URL. Try another link or check the URL."

/-- Line 72. -/
def msg_not_html : String := "URL does not appear to be an HTML article."

/-- Line 85. -/
def msg_download_failed : String :=
  "Failed to download article content (article.download()). Try another URL."

/-- Line 90. -/
def msg_not_retrieved : String :=
  "Could not retrieve the article content. Try a different URL."

/-- Line 97. -/
def msg_parse_failed : String := "Article parsing failed. Try another URL."

/-- Line 118. -/
def msg_empty_text : String :=
  "Article text is empty or could not be extracted. Try another link."

/-- The reachability probe's observable result: whether
`resp.raise_for_status()` passes, and the `Content-Type` header
(`headers.get("Content-Type", "")`). -/
structure ProbeResp where
  status_ok : Bool
  content_type : String
deriving DecidableEq

/-- One POST request's external-world observations, i.e. everything the
third-party libraries hand back to `index`.  `none` in `probe` models
`requests.get` raising a `RequestException`; `download_ok` / `parse_ok`
model `article.download()` / `article.parse()` not raising; `nlp_ok`
models `article.nlp()` not raising (its failure is non-fatal and its
result is unused); `publish_date` is the already-formatted date, `none`
when absent or when `strftime` raised; `blob_polarity` is `none` when
`TextBlob` raised. -/
structure Env where
  form_url : String
  probe : Option ProbeResp
  download_ok : Bool
  is_downloaded : Bool
  parse_ok : Bool
  nlp_ok : Bool
  title : String
  authors : List String
  publish_date : Option String
  text : String
  top_image : Option String
  blob_polarity : Option ℚ

/-- A POST request's terminal outcome: `redirect msg` models
`flash(msg); return redirect(url_for('index'))`, and `render` models
`return render_template('index.html', ...)` with the computed fields
(the `now` timestamp is presentation-only and not modelled). -/
inductive Outcome where
  | redirect (msg : String)
  | render (title authors publish_date summary : String)
      (top_image : Option String) (sentiment : String)
deriving DecidableEq

/-- Lines 60–154 of `app.py`: the POST branch of `index`, stage by stage
in source order. -/
def index_post (env : Env) : Outcome :=
  let url := pyStripS env.form_url
  if validators_url url = false then Outcome.redirect msg_invalid_url
  else
    match env.probe with
    | none => Outcome.redirect msg_fetch_failed
    | some resp =>
      if resp.status_ok = false then Outcome.redirect msg_fetch_failed
      else if hasSubstr "text/html".data resp.content_type.data = false then
        Outcome.redirect msg_not_html
      else if env.download_ok = false then Outcome.redirect msg_download_failed
      else if env.is_downloaded = false then Outcome.redirect msg_not_retrieved
      else if env.parse_ok = false then Outcome.redirect msg_parse_failed
      else
        let title := if env.title = "" then "Untitled" else env.title
        let authors := authors_field env.authors url
        let publish_date := env.publish_date.getD "N/A"
        let article_text := pyStrip env.text.data
        if article_text = [] then Outcome.redirect msg_empty_text
        else
          Outcome.render title authors publish_date ⟨summarize article_text⟩
            env.top_image (sentiment_of (polarity_of env.blob_polarity))

/-! ## Basic lemmas about the string primitives -/

theorem splitOnDot_cons (c : Char) (cs : List Char) :
    splitOnDot (c :: cs) =
      if c = '.' then [] :: splitOnDot cs
      else (c :: (splitOnDot cs).headD []) :: (splitOnDot cs).tail := rfl

theorem splitOnDot_ne_nil (s : List Char) : splitOnDot s ≠ [] := by
  cases s with
  | nil => simp [splitOnDot]
  | cons c cs => rw [splitOnDot_cons]; split <;> simp

theorem mem_of_mem_splitOnDot {s p : List Char} {c : Char}
    (hp : p ∈ splitOnDot s) (hc : c ∈ p) : c ∈ s ∧ c ≠ '.' := by
  induction s generalizing p with
  | nil =>
    simp [splitOnDot] at hp
    subst hp
    simp at hc
  | cons a cs ih =>
    rw [splitOnDot_cons] at hp
    by_cases ha : a = '.'
    · rw [if_pos ha] at hp
      rcases List.mem_cons.1 hp with rfl | h
      · simp at hc
      · have := ih h hc
        exact ⟨List.mem_cons_of_mem _ this.1, this.2⟩
    · rw [if_neg ha] at hp
      obtain ⟨h, t, hr⟩ := List.exists_cons_of_ne_nil (splitOnDot_ne_nil cs)
      rw [hr] at hp
      simp only [List.headD_cons, List.tail_cons] at hp
      rcases List.mem_cons.1 hp with rfl | h1
      · rcases List.mem_cons.1 hc with rfl | h2
        · exact ⟨List.mem_cons_self _ _, ha⟩
        · have hm : h ∈ splitOnDot cs := by rw [hr]; exact List.mem_cons_self _ _
          have := ih hm h2
          exact ⟨List.mem_cons_of_mem _ this.1, this.2⟩
      · have hm : p ∈ splitOnDot cs := by rw [hr]; exact List.mem_cons_of_mem _ h1
        have := ih hm hc
        exact ⟨List.mem_cons_of_mem _ this.1, this.2⟩

theorem splitOnDot_append {p : List Char} (s : List Char) (hp : '.' ∉ p) :
    splitOnDot (p ++ s) = (p ++ (splitOnDot s).headD []) :: (splitOnDot s).tail := by
  induction p with
  | nil =>
    obtain ⟨h, t, hr⟩ := List.exists_cons_of_ne_nil (splitOnDot_ne_nil s)
    simp [hr]
  | cons a p ih =>
    have ha : a ≠ '.' := fun h => hp (h ▸ List.mem_cons_self _ _)
    have hp' : '.' ∉ p := fun h => hp (List.mem_cons_of_mem _ h)
    rw [List.cons_append, splitOnDot_cons, if_neg ha, ih hp']
    simp

theorem splitOnDot_no_dot {s : List Char} (h : '.' ∉ s) : splitOnDot s = [s] := by
  have := splitOnDot_append (p := s) [] h
  simpa [splitOnDot] using this

theorem joinSep_cons_cons (sep x y : List Char) (xs : List (List Char)) :
    joinSep sep (x :: y :: xs) = x ++ sep ++ joinSep sep (y :: xs) := rfl

theorem joinSep_ne_nil {sep f : List Char} {fs : List (List Char)}
    (hf : f ≠ []) : joinSep sep (f :: fs) ≠ [] := by
  cases fs with
  | nil => simpa [joinSep] using hf
  | cons g gs =>
    rw [joinSep_cons_cons]
    simp only [ne_eq, List.append_eq_nil]
    intro h
    exact hf h.1.1

theorem splitOnDot_joinSep {f : List Char} {fs : List (List Char)}
    (h : ∀ p ∈ f :: fs, '.' ∉ p) :
    splitOnDot (joinSep dotSpace (f :: fs)) = f :: fs.map (fun q => ' ' :: q) := by
  induction fs generalizing f with
  | nil => simp [joinSep, splitOnDot_no_dot (h f (List.mem_cons_self _ _))]
  | cons g gs ih =>
    have hf : '.' ∉ f := h f (List.mem_cons_self _ _)
    have h' : ∀ p ∈ g :: gs, '.' ∉ p := fun p hp => h p (List.mem_cons_of_mem _ hp)
    rw [joinSep_cons_cons,
      show f ++ dotSpace ++ joinSep dotSpace (g :: gs)
        = f ++ ('.' :: ' ' :: joinSep dotSpace (g :: gs)) by simp [dotSpace],
      splitOnDot_append _ hf]
    have h1 : splitOnDot ('.' :: ' ' :: joinSep dotSpace (g :: gs))
        = [] :: splitOnDot (' ' :: joinSep dotSpace (g :: gs)) := by
      rw [splitOnDot_cons, if_pos rfl]
    have h2 : splitOnDot (' ' :: joinSep dotSpace (g :: gs))
        = (' ' :: g) :: gs.map (fun q => ' ' :: q) := by
      have h3 := splitOnDot_append (p := [' ']) (joinSep dotSpace (g :: gs)) (by simp)
      rw [ih h'] at h3
      simpa using h3
    simp [h1, h2]

theorem dropWhile_head_false {α : Type} {p : α → Bool} {l : List α} {a : α}
    {t : List α} (h : l.dropWhile p = a :: t) : p a = false := by
  have := List.head_dropWhile_not p l (by simp [h])
  simpa [h] using this

theorem dropWhile_idem {α : Type} (p : α → Bool) (l : List α) :
    (l.dropWhile p).dropWhile p = l.dropWhile p := by
  cases h : l.dropWhile p with
  | nil => rfl
  | cons a t =>
    have ha := dropWhile_head_false h
    simp [List.dropWhile_cons, ha]

theorem dropWhile_append_singleton {α : Type} {p : α → Bool} {a : α}
    (ha : p a = false) (u : List α) :
    (u ++ [a]).dropWhile p = u.dropWhile p ++ [a] := by
  induction u with
  | nil => simp [List.dropWhile_cons, ha]
  | cons b u ih => by_cases hb : p b <;> simp [List.dropWhile_cons, hb, ih]

theorem pyStrip_eq_of_dropWhile {l A' : List Char} {a : Char}
    (h : l.dropWhile pyIsSpace = a :: A') :
    pyStrip l = a :: (A'.reverse.dropWhile pyIsSpace).reverse := by
  have ha := dropWhile_head_false h
  unfold pyStrip
  rw [h, List.reverse_cons, dropWhile_append_singleton ha]
  simp

theorem pyStrip_idem (l : List Char) : pyStrip (pyStrip l) = pyStrip l := by
  cases h : l.dropWhile pyIsSpace with
  | nil =>
    have h0 : pyStrip l = [] := by unfold pyStrip; rw [h]; rfl
    rw [h0]
    rfl
  | cons a A' =>
    have ha := dropWhile_head_false h
    rw [pyStrip_eq_of_dropWhile h]
    have hdrop : (a :: (A'.reverse.dropWhile pyIsSpace).reverse).dropWhile pyIsSpace
        = a :: (A'.reverse.dropWhile pyIsSpace).reverse := by
      simp [List.dropWhile_cons, ha]
    rw [pyStrip_eq_of_dropWhile hdrop]
    have h2 : (A'.reverse.dropWhile pyIsSpace).reverse.reverse.dropWhile pyIsSpace
        = A'.reverse.dropWhile pyIsSpace := by
      rw [List.reverse_reverse, dropWhile_idem]
    rw [h2]

theorem pyStrip_space_cons {c : Char} {l : List Char} (hc : pyIsSpace c = true) :
    pyStrip (c :: l) = pyStrip l := by
  unfold pyStrip
  simp [List.dropWhile_cons, hc]

theorem mem_pyStrip {c : Char} {l : List Char} (h : c ∈ pyStrip l) : c ∈ l := by
  unfold pyStrip at h
  have h1 := List.mem_reverse.1 h
  have h2 := (List.dropWhile_sublist _).subset h1
  have h3 := List.mem_reverse.1 h2
  exact (List.dropWhile_sublist _).subset h3

theorem pyStrip_eq_nil_iff {l : List Char} :
    pyStrip l = [] ↔ ∀ c ∈ l, pyIsSpace c = true := by
  constructor
  · intro h c hc
    have h0 : (l.dropWhile pyIsSpace).reverse.dropWhile pyIsSpace = [] := by
      unfold pyStrip at h
      simpa using congrArg List.reverse h
    have h1 := List.dropWhile_eq_nil_iff.1 h0
    have h2 : ∀ x ∈ l.dropWhile pyIsSpace, pyIsSpace x := fun x hx =>
      h1 x (List.mem_reverse.2 hx)
    have hsplit := List.takeWhile_append_dropWhile (p := pyIsSpace) (l := l)
    rw [← hsplit] at hc
    rcases List.mem_append.1 hc with h3 | h3
    · exact List.mem_takeWhile_imp h3
    · exact h2 c h3
  · intro h
    have h1 : l.dropWhile pyIsSpace = [] := List.dropWhile_eq_nil_iff.2 h
    unfold pyStrip
    rw [h1]
    rfl

theorem pyStrip_eq_self {l : List Char} (h : ∀ c ∈ l, pyIsSpace c = false) :
    pyStrip l = l := by
  cases l with
  | nil => rfl
  | cons a t =>
    have ha : pyIsSpace a = false := h a (List.mem_cons_self _ _)
    have hd : (a :: t).dropWhile pyIsSpace = a :: t := by
      simp [List.dropWhile_cons, ha]
    rw [pyStrip_eq_of_dropWhile hd]
    congr 1
    cases ht : t.reverse with
    | nil => simp [(List.reverse_eq_nil_iff).1 ht]
    | cons b u =>
      have hb : pyIsSpace b = false := by
        refine h b (List.mem_cons_of_mem _ ?_)
        have hbm : b ∈ t.reverse := by rw [ht]; exact List.mem_cons_self _ _
        exact List.mem_reverse.1 hbm
      have hdu : (b :: u).dropWhile pyIsSpace = b :: u := by
        simp [List.dropWhile_cons, hb]
      rw [hdu, ← ht, List.reverse_reverse]

/-! ## Lemmas about `sentencesOf` and `summarize` -/

theorem mem_splitOnDot_of_mem {t : List Char} {c : Char}
    (hc : c ∈ t) (hd : c ≠ '.') : ∃ p ∈ splitOnDot t, c ∈ p := by
  induction t with
  | nil => simp at hc
  | cons a cs ih =>
    by_cases ha : a = '.'
    · rcases List.mem_cons.1 hc with rfl | hmem
      · exact absurd ha hd
      · obtain ⟨p, hp, hcp⟩ := ih hmem
        refine ⟨p, ?_, hcp⟩
        rw [splitOnDot_cons, if_pos ha]
        exact List.mem_cons_of_mem _ hp
    · obtain ⟨h, t', hr⟩ := List.exists_cons_of_ne_nil (splitOnDot_ne_nil cs)
      rcases List.mem_cons.1 hc with rfl | hmem
      · refine ⟨c :: (splitOnDot cs).headD [], ?_, List.mem_cons_self _ _⟩
        rw [splitOnDot_cons, if_neg ha]
        exact List.mem_cons_self _ _
      · obtain ⟨p, hp, hcp⟩ := ih hmem
        rw [hr] at hp
        rcases List.mem_cons.1 hp with rfl | hp'
        · refine ⟨a :: (splitOnDot cs).headD [], ?_, ?_⟩
          · rw [splitOnDot_cons, if_neg ha]
            exact List.mem_cons_self _ _
          · rw [hr]
            exact List.mem_cons_of_mem _ hcp
        · refine ⟨p, ?_, hcp⟩
          rw [splitOnDot_cons, if_neg ha, hr]
          exact List.mem_cons_of_mem _ hp'

theorem sentencesOf_eq_nil_iff {t : List Char} :
    sentencesOf t = [] ↔ ∀ c ∈ t, c = '.' ∨ pyIsSpace c = true := by
  unfold sentencesOf
  rw [List.filter_eq_nil_iff]
  constructor
  · intro h c hc
    by_cases hd : c = '.'
    · exact Or.inl hd
    · right
      obtain ⟨p, hp, hcp⟩ := mem_splitOnDot_of_mem hc hd
      have h1 := h (pyStrip p) (List.mem_map_of_mem _ hp)
      simp only [ne_eq, decide_not, Bool.not_eq_true', decide_eq_false_iff_not,
        not_not] at h1
      exact pyStrip_eq_nil_iff.1 h1 c hcp
  · intro h q hq
    simp only [List.mem_map] at hq
    obtain ⟨p, hp, rfl⟩ := hq
    simp only [ne_eq, decide_not, Bool.not_eq_true', decide_eq_false_iff_not, not_not]
    rw [pyStrip_eq_nil_iff]
    intro c hc
    have hm := mem_of_mem_splitOnDot hp hc
    rcases h c hm.1 with h1 | h1
    · exact absurd h1 hm.2
    · exact h1

theorem mem_sentencesOf {t q : List Char} (h : q ∈ sentencesOf t) :
    q ≠ [] ∧ pyStrip q = q ∧ '.' ∉ q := by
  unfold sentencesOf at h
  obtain ⟨hq_mem, hq_ne⟩ := List.mem_filter.1 h
  simp only [List.mem_map] at hq_mem
  obtain ⟨p, hp, rfl⟩ := hq_mem
  refine ⟨by simpa using hq_ne, pyStrip_idem p, ?_⟩
  intro hdot
  exact (mem_of_mem_splitOnDot hp (mem_pyStrip hdot)).2 rfl

theorem summarize_eq_fallback {t : List Char} (h : sentencesOf t = []) :
    summarize t = t.take 800 ++ (if t.length > 800 then dots else []) := by
  simp [summarize, h, joinSep]

theorem summarize_eq_join {t : List Char} (h : sentencesOf t ≠ []) :
    summarize t = joinSep dotSpace ((sentencesOf t).take max_summarized_sentences) := by
  obtain ⟨f, fs, hr⟩ := List.exists_cons_of_ne_nil h
  have hf : f ≠ [] :=
    (mem_sentencesOf (by rw [hr]; exact List.mem_cons_self _ _)).1
  have hne : joinSep dotSpace ((sentencesOf t).take max_summarized_sentences) ≠ [] := by
    rw [hr]
    simp only [max_summarized_sentences, List.take_succ_cons]
    exact joinSep_ne_nil hf
  simp only [summarize]
  rw [if_neg hne]

/-- The sentence path reproduces its own sentence list: joining stripped,
nonempty, dot-free fragments and re-splitting gives the fragments back. -/
theorem sentencesOf_joinSep {l : List (List Char)}
    (h : ∀ q ∈ l, q ≠ [] ∧ pyStrip q = q ∧ '.' ∉ q) (hl : l ≠ []) :
    sentencesOf (joinSep dotSpace l) = l := by
  obtain ⟨f, fs, rfl⟩ := List.exists_cons_of_ne_nil hl
  unfold sentencesOf
  rw [splitOnDot_joinSep (fun p hp => (h p hp).2.2)]
  have hmap : (fs.map (fun q => ' ' :: q)).map pyStrip = fs := by
    rw [List.map_map]
    have : ∀ q ∈ fs, (pyStrip ∘ fun q => ' ' :: q) q = id q := by
      intro q hq
      have h2 := h q (List.mem_cons_of_mem _ hq)
      simp only [Function.comp_apply, id_eq]
      rw [pyStrip_space_cons (by decide), h2.2.1]
    rw [List.map_congr_left this, List.map_id]
  rw [List.map_cons, hmap, (h f (List.mem_cons_self _ _)).2.1]
  rw [List.filter_eq_self]
  intro q hq
  rcases List.mem_cons.1 hq with rfl | hq'
  · simpa using (h q (List.mem_cons_self _ _)).1
  · simpa using (h q (List.mem_cons_of_mem _ hq')).1

/-- If the text has no period and strips to something nonempty, the single
surviving fragment is the whole stripped text, so the summary is exactly
the stripped text (the 800-character fallback is not reached). -/
theorem summarize_no_dot {t : List Char} (hd : '.' ∉ t) (hs : pyStrip t ≠ []) :
    summarize t = pyStrip t := by
  have hsent : sentencesOf t = [pyStrip t] := by
    unfold sentencesOf
    rw [splitOnDot_no_dot hd]
    simp [hs]
  rw [summarize_eq_join (by rw [hsent]; simp), hsent]
  simp [max_summarized_sentences, joinSep]

/-- Applying `summarize` to its own output returns that output unchanged. -/
theorem summarize_idem (t : List Char) : summarize (summarize t) = summarize t := by
  by_cases h : sentencesOf t = []
  · have hfb := summarize_eq_fallback h
    have hall : ∀ c ∈ t, c = '.' ∨ pyIsSpace c = true := sentencesOf_eq_nil_iff.1 h
    by_cases hlen : t.length > 800
    · rw [hfb, if_pos hlen]
      have hall2 : ∀ c ∈ t.take 800 ++ dots, c = '.' ∨ pyIsSpace c = true := by
        intro c hc
        rcases List.mem_append.1 hc with h1 | h1
        · exact hall c (List.take_subset _ _ h1)
        · simp [dots] at h1
          exact Or.inl h1
      have hsent : sentencesOf (t.take 800 ++ dots) = [] :=
        sentencesOf_eq_nil_iff.2 hall2
      rw [summarize_eq_fallback hsent]
      have hlen800 : (t.take 800).length = 800 := by
        rw [List.length_take]
        omega
      have hlen2 : (t.take 800 ++ dots).length = 803 := by
        rw [List.length_append, hlen800]
        rfl
      rw [if_pos (by omega : (t.take 800 ++ dots).length > 800)]
      rw [List.take_left' hlen800]
    · rw [hfb, if_neg hlen, List.append_nil]
      have htake : t.take 800 = t := List.take_of_length_le (by omega)
      rw [htake, hfb, if_neg hlen, List.append_nil, htake]
  · rw [summarize_eq_join h]
    obtain ⟨f, fs, hr⟩ := List.exists_cons_of_ne_nil h
    set l := (sentencesOf t).take max_summarized_sentences with hl
    have hl_ne : l ≠ [] := by
      rw [hl, hr]
      simp [max_summarized_sentences]
    have hspec : ∀ q ∈ l, q ≠ [] ∧ pyStrip q = q ∧ '.' ∉ q := fun q hq =>
      mem_sentencesOf (List.mem_of_mem_take (by rw [← hl]; exact hq))
    have hsj : sentencesOf (joinSep dotSpace l) = l := sentencesOf_joinSep hspec hl_ne
    rw [summarize_eq_join (by rw [hsj]; exact hl_ne), hsj]
    have hlt : l.length ≤ max_summarized_sentences := by
      rw [hl, List.length_take]
      exact Nat.min_le_left _ _
    rw [List.take_of_length_le hlt]

/-! ## The claims -/

/-- C1 (amended): for every article text that contains no period character
and is nonempty after stripping, the summary equals the stripped text in
its entirety — even when the text is longer than 800 characters; the
first-800-characters-plus-"..." fallback is not taken for such texts. -/
theorem summary_of_text_without_period (t : List Char)
    (hd : '.' ∉ t) (hs : pyStrip t ≠ []) :
    summarize t = pyStrip t := summarize_no_dot hd hs

/-- A period-free text of 801 characters. -/
def longText : List Char := List.replicate 801 'a'

theorem longText_length : longText.length = 801 := by
  simp only [longText, List.length_replicate]

theorem longText_ne_nil : longText ≠ [] := by
  intro h
  have h1 := congrArg List.length h
  rw [longText_length] at h1
  simp at h1

/-- C1 counterexample: a period-free text of length 801 is summarized to
the full 801-character text, not to its first 800 characters plus "...". -/
theorem summary_no_period_truncation_counterexample :
    ('.' ∉ longText) ∧ longText.length > 800 ∧
    summarize longText ≠ longText.take 800 ++ dots := by
  have hd : '.' ∉ longText := by
    intro h
    have h1 := List.eq_of_mem_replicate h
    simp at h1
  have hstrip : pyStrip longText = longText :=
    pyStrip_eq_self (fun c hc => by
      have h1 := List.eq_of_mem_replicate hc
      subst h1
      decide)
  refine ⟨hd, by rw [longText_length]; norm_num, ?_⟩
  rw [summarize_no_dot hd (by rw [hstrip]; exact longText_ne_nil), hstrip]
  intro hcontra
  have hlen := congrArg List.length hcontra
  rw [List.length_append, List.length_take, longText_length] at hlen
  simp only [dots, List.length_cons, List.length_nil] at hlen
  omega

/-- C1 (amended) witness: a concrete period-free text of length 801 whose
summary is the entire text. -/
theorem summary_of_text_without_period_witness :
    ('.' ∉ longText) ∧ pyStrip longText ≠ [] ∧
    summarize longText = pyStrip longText := by
  have hd : '.' ∉ longText := by
    intro h
    have h1 := List.eq_of_mem_replicate h
    simp at h1
  have hs : pyStrip longText ≠ [] := by
    rw [pyStrip_eq_self (fun c hc => by
      have h1 := List.eq_of_mem_replicate hc
      subst h1
      decide)]
    exact longText_ne_nil
  exact ⟨hd, hs, summary_of_text_without_period longText hd hs⟩

/-- C2: the input "A. B. C. D. E. F." is summarized to exactly
"A. B. C. D. E" — the first five period-delimited nonempty stripped
fragments joined with ". " and no sixth fragment; in general the
sentence path joins exactly the first `max_summarized_sentences = 5`
fragments: a prefix of the fragment list, of length at most 5. -/
theorem summary_keeps_first_five_fragments :
    summarize "A. B. C. D. E. F.".data = "A. B. C. D. E".data ∧
    (∀ t : List Char, sentencesOf t ≠ [] →
      summarize t = joinSep dotSpace ((sentencesOf t).take max_summarized_sentences) ∧
      ((sentencesOf t).take max_summarized_sentences).length ≤ 5 ∧
      ∃ rest, (sentencesOf t).take max_summarized_sentences ++ rest = sentencesOf t) := by
  refine ⟨by decide, fun t ht => ⟨summarize_eq_join ht, ?_, ?_⟩⟩
  · rw [List.length_take]
    exact Nat.min_le_left _ _
  · exact ⟨(sentencesOf t).drop max_summarized_sentences, List.take_append_drop _ _⟩

/-- C2 witness: the general sentence-path equation instantiated at the
spec's own example. -/
theorem summary_keeps_first_five_fragments_witness :
    sentencesOf "A. B. C. D. E. F.".data ≠ [] ∧
    summarize "A. B. C. D. E. F.".data
      = joinSep dotSpace
          ((sentencesOf "A. B. C. D. E. F.".data).take max_summarized_sentences) :=
  ⟨by decide,
   (summary_keeps_first_five_fragments.2 "A. B. C. D. E. F.".data (by decide)).1⟩

/-- C3: the sentiment label is a total function of the polarity score:
strictly positive polarity gives the happy label, strictly negative the
sad label, and zero — including the TextBlob-failure default `0.0`,
modelled by `polarity_of none` — the neutral label, each with its fixed
glyph. -/
theorem sentiment_total_mapping (p : ℚ) :
    (p > 0 → sentiment_of p = "happy 😊") ∧
    (p < 0 → sentiment_of p = "sad 😟") ∧
    (p = 0 → sentiment_of p = "neutral 😐") ∧
    sentiment_of (polarity_of none) = "neutral 😐" := by
  refine ⟨fun h => by rw [sentiment_of, if_pos h], fun h => ?_, fun h => ?_, ?_⟩
  · rw [sentiment_of, if_neg (by linarith), if_pos h]
  · rw [sentiment_of, if_neg (by simp [h]), if_neg (by simp [h])]
  · rw [show polarity_of none = 0 from rfl,
      sentiment_of, if_neg (by norm_num), if_neg (by norm_num)]

/-- C3 witness: the mapping evaluated at a positive, a negative, and the
zero / failure-default polarity. -/
theorem sentiment_total_mapping_witness :
    sentiment_of 1 = "happy 😊" ∧ sentiment_of (-1) = "sad 😟" ∧
    sentiment_of 0 = "neutral 😐" ∧ sentiment_of (polarity_of none) = "neutral 😐" :=
  ⟨(sentiment_total_mapping 1).1 (by norm_num),
   (sentiment_total_mapping (-1)).2.1 (by norm_num),
   (sentiment_total_mapping 0).2.2.1 rfl,
   (sentiment_total_mapping 0).2.2.2⟩

/-- C8: summary generation is a pure, deterministic function of the text
— equal texts give equal summaries — and it is idempotent: summarizing a
summary returns it unchanged. -/
theorem summarize_deterministic_idempotent :
    (∀ t : List Char, summarize (summarize t) = summarize t) ∧
    (∀ t₁ t₂ : List Char, t₁ = t₂ → summarize t₁ = summarize t₂) :=
  ⟨summarize_idem, fun t₁ t₂ h => by rw [h]⟩

/-- C8 witness: idempotence and determinism at concrete texts. -/
theorem summarize_deterministic_idempotent_witness :
    summarize (summarize "One. Two. Three.".data) = summarize "One. Two. Three.".data ∧
    summarize "abc".data = summarize "abc".data :=
  ⟨summarize_deterministic_idempotent.1 "One. Two. Three.".data,
   summarize_deterministic_idempotent.2 "abc".data "abc".data rfl⟩

/-- C10: if the article text is nonempty after stripping (the workflow
summarizes exactly the stripped text), the computed summary is nonempty:
either at least one fragment survives and the join is nonempty, or the
fallback takes the first 800 characters of the nonempty text. -/
theorem summary_nonempty_of_text_nonempty (t : List Char)
    (h : pyStrip t ≠ []) : summarize (pyStrip t) ≠ [] := by
  by_cases hs : sentencesOf (pyStrip t) = []
  · rw [summarize_eq_fallback hs]
    intro hcontra
    rcases List.append_eq_nil.1 hcontra with ⟨h1, _⟩
    rcases List.take_eq_nil_iff.1 h1 with h2 | h2
    · exact absurd h2 (by norm_num)
    · exact h h2
  · rw [summarize_eq_join hs]
    obtain ⟨f, fs, hr⟩ := List.exists_cons_of_ne_nil hs
    have hf : f ≠ [] :=
      (mem_sentencesOf (by rw [hr]; exact List.mem_cons_self _ _)).1
    rw [hr]
    simp only [max_summarized_sentences, List.take_succ_cons]
    exact joinSep_ne_nil hf

/-- C10 witness: the nonemptiness guarantee at a concrete text. -/
theorem summary_nonempty_of_text_nonempty_witness :
    pyStrip "  hi  ".data ≠ [] ∧ summarize (pyStrip "  hi  ".data) ≠ [] :=
  ⟨by decide, summary_nonempty_of_text_nonempty "  hi  ".data (by decide)⟩

/-! ## The request workflow -/

/-- The user-facing failure messages of `index`, one per failure category
(invalid URL, fetch failure, non-HTML, download failure, retrieval
failure, parse failure, empty text). -/
def failure_messages : List String :=
  [msg_invalid_url, msg_fetch_failed, msg_not_html, msg_download_failed,
   msg_not_retrieved, msg_parse_failed, msg_empty_text]

/-- All stages of the POST workflow succeed: the URL validates, the probe
returns a successful HTML response, download, downloaded-flag and parse
succeed, and the extracted text is nonempty after stripping. -/
def allStagesOk (env : Env) : Bool :=
  validators_url (pyStripS env.form_url) &&
  (match env.probe with
   | some resp => resp.status_ok && hasSubstr "text/html".data resp.content_type.data
   | none => false) &&
  env.download_ok && env.is_downloaded && env.parse_ok &&
  decide (pyStrip env.text.data ≠ [])

/-- Exhaustive case analysis of the POST handler: either every stage
succeeds and the result page is rendered with the computed fields, or
some stage fails and the outcome is a redirect carrying one of the fixed
failure messages. -/
theorem index_post_cases (env : Env) :
    (allStagesOk env = true ∧
      index_post env = Outcome.render
        (if env.title = "" then "Untitled" else env.title)
        (authors_field env.authors (pyStripS env.form_url))
        (env.publish_date.getD "N/A")
        ⟨summarize (pyStrip env.text.data)⟩
        env.top_image
        (sentiment_of (polarity_of env.blob_polarity))) ∨
    (allStagesOk env = false ∧ ∃ msg, msg ∈ failure_messages ∧
      index_post env = Outcome.redirect msg) := by
  cases hv : validators_url (pyStripS env.form_url) with
  | false =>
    exact Or.inr ⟨by simp [allStagesOk, hv],
      msg_invalid_url, List.mem_cons_self _ _, by simp [index_post, hv]⟩
  | true =>
    cases hp : env.probe with
    | none =>
      exact Or.inr ⟨by simp [allStagesOk, hp],
        msg_fetch_failed, List.mem_cons_of_mem _ (List.mem_cons_self _ _),
        by simp [index_post, hv, hp]⟩
    | some resp =>
      cases hst : resp.status_ok with
      | false =>
        exact Or.inr ⟨by simp [allStagesOk, hp, hst],
          msg_fetch_failed, List.mem_cons_of_mem _ (List.mem_cons_self _ _),
          by simp [index_post, hv, hp, hst]⟩
      | true =>
        cases hct : hasSubstr "text/html".data resp.content_type.data with
        | false =>
          exact Or.inr ⟨by simp [allStagesOk, hp, hst, hct],
            msg_not_html,
            List.mem_cons_of_mem _ (List.mem_cons_of_mem _ (List.mem_cons_self _ _)),
            by simp [index_post, hv, hp, hst, hct]⟩
        | true =>
          cases hdl : env.download_ok with
          | false =>
            exact Or.inr ⟨by simp [allStagesOk, hdl],
              msg_download_failed,
              List.mem_cons_of_mem _ (List.mem_cons_of_mem _
                (List.mem_cons_of_mem _ (List.mem_cons_self _ _))),
              by simp [index_post, hv, hp, hst, hct, hdl]⟩
          | true =>
            cases hid : env.is_downloaded with
            | false =>
              exact Or.inr ⟨by simp [allStagesOk, hid],
                msg_not_retrieved,
                List.mem_cons_of_mem _ (List.mem_cons_of_mem _
                  (List.mem_cons_of_mem _ (List.mem_cons_of_mem _
                    (List.mem_cons_self _ _)))),
                by simp [index_post, hv, hp, hst, hct, hdl, hid]⟩
            | true =>
              cases hpar : env.parse_ok with
              | false =>
                exact Or.inr ⟨by simp [allStagesOk, hpar],
                  msg_parse_failed,
                  List.mem_cons_of_mem _ (List.mem_cons_of_mem _
                    (List.mem_cons_of_mem _ (List.mem_cons_of_mem _
                      (List.mem_cons_of_mem _ (List.mem_cons_self _ _))))),
                  by simp [index_post, hv, hp, hst, hct, hdl, hid, hpar]⟩
              | true =>
                by_cases htxt : pyStrip env.text.data = []
                · refine Or.inr ⟨by simp [allStagesOk, htxt],
                    msg_empty_text,
                    List.mem_cons_of_mem _ (List.mem_cons_of_mem _
                      (List.mem_cons_of_mem _ (List.mem_cons_of_mem _
                        (List.mem_cons_of_mem _ (List.mem_cons_of_mem _
                          (List.mem_cons_self _ _)))))), ?_⟩
                  simp [index_post, hv, hp, hst, hct, hdl, hid, hpar, htxt]
                · refine Or.inl ⟨?_, ?_⟩
                  · simp [allStagesOk, hv, hp, hst, hct, hdl, hid, hpar, htxt]
                  · simp [index_post, hv, hp, hst, hct, hdl, hid, hpar, htxt]

/-- C4: whenever the extracted author list is empty and a result page is
rendered, its authors field is the URL's domain with any leading "www."
removed; concretely, for "https://www.example.com/story" that domain is
"example.com". -/
theorem authors_fallback_domain :
    (∀ (env : Env) (t a p s : String) (i : Option String) (se : String),
      env.authors = [] → index_post env = Outcome.render t a p s i se →
      a = get_website_name (pyStripS env.form_url)) ∧
    get_website_name "https://www.example.com/story" = "example.com" := by
  refine ⟨fun env t a p s i se hempty hrender => ?_, by decide⟩
  rcases index_post_cases env with ⟨-, hr⟩ | ⟨-, msg, -, hr⟩
  · rw [hrender, Outcome.render.injEq] at hr
    obtain ⟨-, ha, -⟩ := hr
    rw [ha, hempty]
    simp [authors_field]
  · rw [hrender] at hr
    exact absurd hr (by simp)

/-- The environment of a fully successful request with no extracted
authors, used as the concrete witness input. -/
def envSuccess : Env :=
  { form_url := "https://www.example.com/story", probe := some ⟨true, "text/html"⟩,
    download_ok := true, is_downloaded := true, parse_ok := true, nlp_ok := true,
    title := "T", authors := [], publish_date := none, text := "Hello world.",
    top_image := none, blob_polarity := some 0 }

/-- C4 witness: the fully successful zero-author request for
"https://www.example.com/story" renders "example.com" as its authors
field. -/
theorem authors_fallback_domain_witness :
    envSuccess.authors = [] ∧
    index_post envSuccess
      = Outcome.render "T" "example.com" "N/A" "Hello world" none "neutral 😐" ∧
    "example.com" = get_website_name (pyStripS envSuccess.form_url) :=
  ⟨rfl, by decide,
   authors_fallback_domain.1 envSuccess "T" "example.com" "N/A" "Hello world"
     none "neutral 😐" rfl (by decide)⟩

/-- C5: a request whose extracted text strips to empty never renders a
result page — regardless of title, authors, date or image — and when
every earlier stage succeeded it redirects with exactly the
empty-content message. -/
theorem empty_text_aborts :
    (∀ env : Env, pyStrip env.text.data = [] →
      ∀ (t a p s : String) (i : Option String) (se : String),
        index_post env ≠ Outcome.render t a p s i se) ∧
    (∀ (env : Env) (resp : ProbeResp),
      validators_url (pyStripS env.form_url) = true →
      env.probe = some resp → resp.status_ok = true →
      hasSubstr "text/html".data resp.content_type.data = true →
      env.download_ok = true → env.is_downloaded = true → env.parse_ok = true →
      pyStrip env.text.data = [] →
      index_post env = Outcome.redirect msg_empty_text) := by
  constructor
  · intro env htxt t a p s i se hrender
    rcases index_post_cases env with ⟨hok, -⟩ | ⟨-, msg, -, hr⟩
    · rw [allStagesOk, htxt] at hok
      simp at hok
    · rw [hrender] at hr
      exact absurd hr (by simp)
  · intro env resp hv hp hst hct hdl hid hpar htxt
    simp [index_post, hv, hp, hst, hct, hdl, hid, hpar, htxt]

/-- The environment of a request that succeeds at every stage up to
parsing but whose extracted text is whitespace only. -/
def envEmptyText : Env :=
  { form_url := "https://www.example.com/story", probe := some ⟨true, "text/html"⟩,
    download_ok := true, is_downloaded := true, parse_ok := true, nlp_ok := true,
    title := "T", authors := ["A"], publish_date := some "May 01, 2024",
    text := "   ", top_image := some "https://img", blob_polarity := some 0 }

/-- C5 witness: the whitespace-text request redirects with the
empty-content message and renders nothing, although title, authors, date
and image were all extracted. -/
theorem empty_text_aborts_witness :
    index_post envEmptyText = Outcome.redirect msg_empty_text ∧
    index_post envEmptyText
      ≠ Outcome.render "T" "A" "May 01, 2024" "" (some "https://img") "neutral 😐" :=
  ⟨empty_text_aborts.2 envEmptyText ⟨true, "text/html"⟩ (by decide) rfl rfl
      (by decide) rfl rfl rfl (by decide),
   empty_text_aborts.1 envEmptyText (by decide) "T" "A" "May 01, 2024" ""
      (some "https://img") "neutral 😐"⟩

/-- C6: a submitted string that fails URL validation is rejected with the
invalid-URL message whatever the rest of the environment holds — in
particular the outcome does not depend on any network observation — and
the empty string and a scheme-less string both fail validation. -/
theorem invalid_url_rejected :
    (∀ env : Env, validators_url (pyStripS env.form_url) = false →
      index_post env = Outcome.redirect msg_invalid_url) ∧
    validators_url "" = false ∧ validators_url "example.com" = false :=
  ⟨fun env hv => by simp [index_post, hv], by decide, by decide⟩

/-- An environment whose form field holds a scheme-less string. -/
def envInvalid : Env :=
  { form_url := "example.com", probe := some ⟨true, "text/html"⟩,
    download_ok := true, is_downloaded := true, parse_ok := true, nlp_ok := true,
    title := "T", authors := [], publish_date := none, text := "x",
    top_image := none, blob_polarity := none }

/-- C6 witness: the scheme-less submission is redirected with the
invalid-URL message. -/
theorem invalid_url_rejected_witness :
    validators_url (pyStripS envInvalid.form_url) = false ∧
    index_post envInvalid = Outcome.redirect msg_invalid_url :=
  ⟨by decide, invalid_url_rejected.1 envInvalid (by decide)⟩

/-- C7: a successful probe whose Content-Type lacks the substring
"text/html" is rejected with the not-an-article message before any
extraction, and a probe that raises, or whose status check fails, is
uniformly rejected with the fetch-failure message. -/
theorem non_html_and_fetch_failures :
    (∀ (env : Env) (resp : ProbeResp),
      validators_url (pyStripS env.form_url) = true →
      env.probe = some resp → resp.status_ok = true →
      hasSubstr "text/html".data resp.content_type.data = false →
      index_post env = Outcome.redirect msg_not_html) ∧
    (∀ env : Env, validators_url (pyStripS env.form_url) = true →
      env.probe = none → index_post env = Outcome.redirect msg_fetch_failed) ∧
    (∀ (env : Env) (resp : ProbeResp),
      validators_url (pyStripS env.form_url) = true →
      env.probe = some resp → resp.status_ok = false →
      index_post env = Outcome.redirect msg_fetch_failed) := by
  refine ⟨fun env resp hv hp hst hct => ?_, fun env hv hp => ?_,
    fun env resp hv hp hst => ?_⟩
  · simp [index_post, hv, hp, hst, hct]
  · simp [index_post, hv, hp]
  · simp [index_post, hv, hp, hst]

/-- An environment whose probe succeeds with a PDF content type. -/
def envNonHtml : Env :=
  { form_url := "https://www.example.com/story",
    probe := some ⟨true, "application/pdf"⟩,
    download_ok := true, is_downloaded := true, parse_ok := true, nlp_ok := true,
    title := "T", authors := [], publish_date := none, text := "x",
    top_image := none, blob_polarity := none }

/-- C7 witness: the PDF response is rejected with the not-an-article
message. -/
theorem non_html_and_fetch_failures_witness :
    index_post envNonHtml = Outcome.redirect msg_not_html :=
  non_html_and_fetch_failures.1 envNonHtml ⟨true, "application/pdf"⟩
    (by decide) rfl rfl (by decide)

/-- C9: every POST request ends in exactly one of two terminal outcomes:
if all six stages succeed a result page is rendered (and no redirect
happens), otherwise a redirect carrying one of the fixed
failure-category messages is issued (and no result page is rendered). -/
theorem post_terminal_dichotomy (env : Env) :
    (allStagesOk env = true ∧
      (∃ t a p s i se, index_post env = Outcome.render t a p s i se) ∧
      ∀ msg, index_post env ≠ Outcome.redirect msg) ∨
    (allStagesOk env = false ∧
      (∃ msg, msg ∈ failure_messages ∧ index_post env = Outcome.redirect msg) ∧
      ∀ (t a p s : String) (i : Option String) (se : String),
        index_post env ≠ Outcome.render t a p s i se) := by
  rcases index_post_cases env with ⟨hok, hr⟩ | ⟨hok, msg, hmem, hr⟩
  · refine Or.inl ⟨hok, ⟨_, _, _, _, _, _, hr⟩, fun msg hcontra => ?_⟩
    rw [hr] at hcontra
    exact absurd hcontra (by simp)
  · refine Or.inr ⟨hok, ⟨msg, hmem, hr⟩, fun t a p s i se hcontra => ?_⟩
    rw [hr] at hcontra
    exact absurd hcontra (by simp)

/-- C9 witness: the dichotomy instantiated at the fully successful
environment. -/
theorem post_terminal_dichotomy_witness :
    (allStagesOk envSuccess = true ∧
      (∃ t a p s i se, index_post envSuccess = Outcome.render t a p s i se) ∧
      ∀ msg, index_post envSuccess ≠ Outcome.redirect msg) ∨
    (allStagesOk envSuccess = false ∧
      (∃ msg, msg ∈ failure_messages ∧ index_post envSuccess = Outcome.redirect msg) ∧
      ∀ (t a p s : String) (i : Option String) (se : String),
        index_post envSuccess ≠ Outcome.render t a p s i se) :=
  post_terminal_dichotomy envSuccess

end NewsSummarizer
